import Mathlib

/-!
Verification of the Employee-NLQ query engine against its specification.

The frontend `Dashboard` component (connection-string normalization, the
run-query handler, the file picker and the job-status polling effect) is
embedded directly from the TypeScript source.  The backend query engine
(cache/history layer, ingestion pipeline, vector store, classifier) is not
part of the available sources, so those components are modelled from the
spec, as marked on each definition.

JavaScript strings are embedded as `List Char`; the JS string methods used
by the source (`toLowerCase`, `trim`, `startsWith`, `replace` of an anchored
case-insensitive prefix) are modelled for ASCII text, which covers every
scheme and keyword the code compares against.
-/

namespace EmployeeNLQ

/-- ASCII lowercasing of one character, the behaviour of JS
`String.prototype.toLowerCase` on ASCII input. -/
def lowerChar (c : Char) : Char :=
  if ('A' ≤ c ∧ c ≤ 'Z') then Char.ofNat (c.toNat + 32) else c

/-- JS `s.toLowerCase()` on an ASCII string embedded as a char list. -/
def lowerStr (l : List Char) : List Char := l.map lowerChar

/-- JS `s.trim()`: strip whitespace from both ends. -/
def jsTrim (l : List Char) : List Char :=
  ((l.dropWhile Char.isWhitespace).reverse.dropWhile Char.isWhitespace).reverse

/-- Embeds `normalizeConnectionString` from `Dashboard.tsx` (the branch on
`lower.startsWith` and the anchored case-insensitive prefix `replace`),
operating on the char-list representation of the input string. -/
def normCS (input : List Char) : List Char :=
  if "postgresql+".data.isPrefixOf (lowerStr input) then input
  else if "postgres+".data.isPrefixOf (lowerStr input) then input
  else if "postgresql://".data.isPrefixOf (lowerStr input) then
    "postgresql+psycopg://".data ++ input.drop 13
  else if "postgres://".data.isPrefixOf (lowerStr input) then
    "postgresql+psycopg://".data ++ input.drop 11
  else input

/-- The `normalizeConnectionString` function from `Dashboard.tsx`, as a
`String` function. -/
def normalizeConnectionString (s : String) : String := ⟨normCS s.data⟩

/-- The outcome of the frontend `handleRunQuery` handler: it either sets an
error message and returns, or posts `/api/query` with the normalized
connection string, the trimmed query and `top_k = 10`. -/
inductive RunQueryAction where
  | setError (msg : String)
  | sendRequest (connection_string : List Char) (query : List Char) (top_k : Nat)
deriving DecidableEq, Repr

/-- Embeds `handleRunQuery` from `Dashboard.tsx`: empty connection string or
empty trimmed query text set an error without sending a request; otherwise
the request is posted with the normalized connection string, the trimmed
query text and `top_k = 10`. -/
def handleRunQuery (connectionString queryText : List Char) : RunQueryAction :=
  if connectionString.isEmpty then
    .setError "Connect to a database first."
  else if (jsTrim queryText).isEmpty then
    .setError "Please enter a natural language query."
  else
    .sendRequest (normCS connectionString) (jsTrim queryText) 10

/-- Whether a `RunQueryAction` posts a request to the backend. -/
def sendsRequest : RunQueryAction → Bool
  | .sendRequest _ _ _ => true
  | .setError _ => false

/-- Whether a `RunQueryAction` sets the query error state. -/
def setsError : RunQueryAction → Bool
  | .setError _ => true
  | .sendRequest _ _ _ => false

/-- The `/api/ingest/status` payload consumed by the Dashboard. -/
structure JobStatusResponse where
  job_id : String
  status : String
  processed : Nat
  total : Nat
deriving DecidableEq, Repr

/-- Embeds the Dashboard job-status polling effect: with no job status, or a
`completed` or `failed` one, the effect returns without installing an
interval (`none`); otherwise it installs a 2000 ms interval. -/
def pollingInterval (jobStatus : Option JobStatusResponse) : Option Nat :=
  match jobStatus with
  | none => none
  | some js =>
      if js.status = "completed" ∨ js.status = "failed" then none
      else some 2000

/-- One firing of the installed polling interval: only possible when the
effect installed an interval, it fetches the job status and, when the fetch
succeeds, stores the new status (a failed fetch leaves the state alone). -/
inductive PollStep (fetch : String → Option JobStatusResponse) :
    Option JobStatusResponse → Option JobStatusResponse → Prop
  | tick (js next : JobStatusResponse)
      (hpoll : pollingInterval (some js) = some 2000)
      (hfetch : fetch js.job_id = some next) :
      PollStep fetch (some js) (some next)
  | tickKeep (js : JobStatusResponse)
      (hpoll : pollingInterval (some js) = some 2000)
      (hfetch : fetch js.job_id = none) :
      PollStep fetch (some js) (some js)

/-- The `accept` attribute of the Dashboard file input. -/
def acceptAttribute : String := ".pdf,.docx,.txt,.csv,.json,.jsonl"

deriving instance DecidableEq for Except

/-- Query type of a classified query (SQL | DOCUMENT | HYBRID). -/
inductive QueryType where
  | sql
  | document
  | hybrid
deriving DecidableEq, Repr

/-- Modelled from the spec: the QueryResult value cached and returned by the
missing backend orchestrator — query type, structured rows and document
source snippets.  The per-call metrics (latency, cache hit/miss) are
reported alongside, not stored in the cached value. -/
structure QueryResult where
  queryType : QueryType
  rows : List (List String)
  sources : List String
deriving DecidableEq, Repr

/-- Modelled from the spec: a CacheEntry — cached QueryResult, creation
timestamp and TTL; an entry is never served after its TTL has elapsed. -/
structure CacheEntry where
  result : QueryResult
  insertedAt : Nat
  ttl : Nat
deriving DecidableEq, Repr

/-- Modelled from the spec: a QueryHistoryRecord — query text, classified
type and timestamp, most-recent-first per connection. -/
structure HistoryRecord where
  query : String
  type : QueryType
  timestamp : Nat
deriving DecidableEq, Repr

/-- Modelled from the spec: the missing backend engine state for one
connection — the cache namespace (fingerprint-keyed association list) and
the query history, most recent first. -/
structure EngineState where
  cache : List (String × CacheEntry)
  history : List HistoryRecord
deriving DecidableEq, Repr

/-- Modelled from the spec: the missing cache fingerprint — a pure function
of normalized connection identity, normalized query text and the
result-shaping `top_k` parameter. -/
def fingerprint (conn query : String) (topK : Nat) : String :=
  conn ++ "|" ++ query ++ "|" ++ toString topK

/-- Modelled from the spec: missing cache `get(fingerprint)` — returns the
cached QueryResult if present and unexpired at `now`, else a miss. -/
def cacheGet (cache : List (String × CacheEntry)) (fp : String) (now : Nat) :
    Option QueryResult :=
  match cache.lookup fp with
  | some e => if now < e.insertedAt + e.ttl then some e.result else none
  | none => none

/-- Modelled from the spec: missing cache `put(fingerprint, result, ttl)` —
stores the result, overwriting any prior entry for that fingerprint. -/
def cachePut (cache : List (String × CacheEntry)) (fp : String)
    (r : QueryResult) (now ttl : Nat) : List (String × CacheEntry) :=
  (fp, ⟨r, now, ttl⟩) :: cache.filter (fun p => !(p.1 == fp))

/-- The error message of the spec's ValidationError for an empty query. -/
def validationErrorEmptyQuery : String := "ValidationError: empty query"

/-- Modelled from the spec: the missing backend request path for a query.
An empty (all-whitespace) query fails with a ValidationError before
classification, cache or history are touched.  Otherwise the fingerprint of
the normalized connection identity, trimmed query text and `top_k` is looked
up: a hit returns the cached result with `cache_hit = true`; a miss runs the
orchestrator (abstracted as `compute`), caches the result with the given
TTL and returns it with `cache_hit = false`.  History is appended on every
successfully classified query, cached or not.  The returned `Bool` is the
`cache_hit` metric. -/
def processQuery (compute : String → QueryResult) (st : EngineState)
    (conn query : String) (topK ttl now : Nat) :
    Except String (QueryResult × Bool) × EngineState :=
  if (jsTrim query.data).isEmpty then
    (.error validationErrorEmptyQuery, st)
  else
    match cacheGet st.cache
        (fingerprint (normalizeConnectionString conn) ⟨jsTrim query.data⟩ topK) now with
    | some r =>
        (.ok (r, true),
          ⟨st.cache, ⟨⟨jsTrim query.data⟩, r.queryType, now⟩ :: st.history⟩)
    | none =>
        (.ok (compute ⟨jsTrim query.data⟩, false),
          ⟨cachePut st.cache
              (fingerprint (normalizeConnectionString conn) ⟨jsTrim query.data⟩ topK)
              (compute ⟨jsTrim query.data⟩) now ttl,
            ⟨⟨jsTrim query.data⟩, (compute ⟨jsTrim query.data⟩).queryType, now⟩
              :: st.history⟩)

/-- Status of an IngestionJob. -/
inductive JobStatus where
  | pending
  | in_progress
  | completed
  | failed
deriving DecidableEq, Repr

/-- Modelled from the spec: the missing IngestionJob record — status,
processed count and total count. -/
structure IngestionJob where
  status : JobStatus
  processed : Nat
  total : Nat
deriving DecidableEq, Repr

/-- Rank of a job status along the allowed transition order
pending → in_progress → \x7bcompleted, failed\x7d. -/
def statusRank : JobStatus → Nat
  | .pending => 0
  | .in_progress => 1
  | .completed => 2
  | .failed => 2

/-- Modelled from the spec: the transitions the missing pipeline worker
performs on an IngestionJob.  A job starts when the first file begins
processing, the processed count increments per completed file, the job
completes once all files are processed, and a job-level fault fails a
not-yet-terminal job. -/
inductive JobStep : IngestionJob → IngestionJob → Prop
  | start (t : Nat) : JobStep ⟨.pending, 0, t⟩ ⟨.in_progress, 0, t⟩
  | fileDone (p t : Nat) (h : p < t) :
      JobStep ⟨.in_progress, p, t⟩ ⟨.in_progress, p + 1, t⟩
  | complete (t : Nat) : JobStep ⟨.in_progress, t, t⟩ ⟨.completed, t, t⟩
  | failPending (p t : Nat) : JobStep ⟨.pending, p, t⟩ ⟨.failed, p, t⟩
  | failRunning (p t : Nat) : JobStep ⟨.in_progress, p, t⟩ ⟨.failed, p, t⟩

/-- A document chunk held by the vector store: identifier, owning document,
creation ordinal, content and embedding vector. -/
structure DocumentChunk where
  chunkId : String
  documentId : String
  ordinal : Nat
  content : String
  embedding : List Int
deriving DecidableEq, Repr

/-- Modelled from the spec: the inner-product similarity measure, applied
consistently by the missing vector store. -/
def similarity (q e : List Int) : Int := (List.zipWith (· * ·) q e).sum

/-- The ranking used by search: higher similarity first, ties broken by
chunk creation ordinal, earlier first. -/
def chunkLE (q : List Int) (a b : DocumentChunk) : Bool :=
  decide (similarity q b.embedding < similarity q a.embedding) ||
    (decide (similarity q a.embedding = similarity q b.embedding) &&
      decide (a.ordinal ≤ b.ordinal))

/-- Modelled from the spec: the missing vector store
`search(queryEmbedding, k, filter?)` — the stored chunks satisfying the
filter, ranked by similarity to the query embedding with ties broken by
creation order, truncated to the top k. -/
def vsearch (q : List Int) (k : Nat) (filter : DocumentChunk → Bool)
    (store : List DocumentChunk) : List DocumentChunk :=
  ((store.filter filter).mergeSort (chunkLE q)).take k

/-- A discovered schema model as the classifier sees it: table names,
column names and synonym vocabulary. -/
structure SchemaModel where
  tables : List String
  columns : List String
  synonyms : List String
deriving DecidableEq, Repr

/-- Whether `pat` occurs as a contiguous run inside a char list (the JS
`String.prototype.includes` used for keyword matching). -/
def isInfixChars (pat : List Char) : List Char → Bool
  | [] => pat.isEmpty
  | c :: t => pat.isPrefixOf (c :: t) || isInfixChars pat t

/-- Modelled from the spec: document-intent cue keywords used by the
missing classifier. -/
def documentCues : List String :=
  ["document", "documents", "resume", "resumes", "policy", "file",
   "mentioning", "related"]

set_option linter.unusedVariables false in
/-- Modelled from the spec: the missing query classifier.  The `now` and
`rand` arguments stand for the ambient wall-clock and random state a faulty
implementation could consult; per the spec the decision inspects only the
query text against the schema vocabulary and the document-intent cues:
both kinds of hit → HYBRID, document cues only → DOCUMENT, otherwise
(schema vocabulary only, or no hit at all) → SQL. -/
def classifyQuery (now rand : Nat) (query : String) (schema : SchemaModel) :
    QueryType :=
  let ql := lowerStr query.data
  let vocab := schema.tables ++ schema.columns ++ schema.synonyms
  let schemaHit := vocab.any (fun t => isInfixChars (lowerStr t.data) ql)
  let docHit := documentCues.any (fun t => isInfixChars t.data ql)
  if schemaHit && docHit then .hybrid
  else if docHit then .document
  else .sql

/-- The supported upload extensions, as listed by the Dashboard file
picker's `accept` attribute and the backend format check. -/
def supportedExtensions : List String :=
  [".pdf", ".docx", ".txt", ".csv", ".json", ".jsonl"]

/-- A raw uploaded file: name and extracted byte content. -/
structure RawFile where
  name : String
  content : String
deriving DecidableEq, Repr

/-- The lowercased extension of a file name, from its last dot (empty when
the name has no dot). -/
def fileExt (name : String) : List Char :=
  let rev := (lowerStr name.data).reverse
  if rev.any (fun c => c == '.') then
    '.' :: (rev.takeWhile (fun c => c != '.')).reverse
  else []

/-- Modelled from the spec: the missing supported-format check — a file
passes validation iff its extension is one of the supported ones. -/
def isSupported (f : RawFile) : Bool :=
  supportedExtensions.any (fun e => e.data == fileExt f.name)

/-- Modelled from the spec: the missing batch validation and job queueing —
unsupported files are rejected with a validation error before the job is
queued, and the job is created in `pending` state over the supported files
only. -/
def queueJob (files : List RawFile) : IngestionJob × List RawFile :=
  (⟨.pending, 0, (files.filter isSupported).length⟩, files.filter isSupported)


section NormalizationLemmas

theorem lowerStr_append (a b : List Char) :
    lowerStr (a ++ b) = lowerStr a ++ lowerStr b := by
  simp [lowerStr]

theorem isPrefixOf_self_append (p t : List Char) : p.isPrefixOf (p ++ t) = true :=
  List.isPrefixOf_iff_prefix.mpr (List.prefix_append p t)

/-- A string already rewritten to the psycopg driver form is returned
unchanged by `normCS`: its lowering starts with `postgresql+`. -/
theorem normCS_psycopg_fixed (d : List Char) :
    normCS ("postgresql+psycopg://".data ++ d) = "postgresql+psycopg://".data ++ d := by
  have hsplit : "postgresql+psycopg://".data
      = "postgresql+".data ++ "psycopg://".data := by decide
  have hlow : lowerStr "postgresql+psycopg://".data = "postgresql+psycopg://".data := by
    decide
  have hc1 : "postgresql+".data.isPrefixOf
      (lowerStr ("postgresql+psycopg://".data ++ d)) = true := by
    rw [lowerStr_append, hlow, hsplit, List.append_assoc]
    exact isPrefixOf_self_append _ _
  unfold normCS
  rw [if_pos hc1]

/-- The function `normCS` either leaves its input unchanged or produces a
string of the form `postgresql+psycopg://` followed by a tail. -/
theorem normCS_cases (l : List Char) :
    normCS l = l ∨ ∃ d, normCS l = "postgresql+psycopg://".data ++ d := by
  unfold normCS
  split_ifs <;> first
    | exact Or.inl rfl
    | exact Or.inr ⟨_, rfl⟩

/-- Rewriting a case-variant `postgresql://` or `postgres://` scheme: the
whole scheme is replaced by `postgresql+psycopg://` and the remainder of the
string is kept. -/
theorem normCS_scheme (p rest : List Char)
    (hp : lowerStr p = "postgresql://".data ∨ lowerStr p = "postgres://".data) :
    normCS (p ++ rest) = "postgresql+psycopg://".data ++ rest := by
  rcases hp with hp | hp
  · have hlen : p.length = 13 := by
      have h := congrArg List.length hp
      simpa [lowerStr] using h
    have hlow : lowerStr (p ++ rest) = "postgresql://".data ++ lowerStr rest := by
      rw [lowerStr_append, hp]
    have hc1 : "postgresql+".data.isPrefixOf (lowerStr (p ++ rest)) = false := by
      rw [hlow]; rfl
    have hc2 : "postgres+".data.isPrefixOf (lowerStr (p ++ rest)) = false := by
      rw [hlow]; rfl
    have hc3 : "postgresql://".data.isPrefixOf (lowerStr (p ++ rest)) = true := by
      rw [hlow]; exact isPrefixOf_self_append _ _
    have hdrop : (p ++ rest).drop 13 = rest := by
      rw [← hlen]; exact List.drop_left p rest
    unfold normCS
    rw [if_neg (by rw [hc1]; exact Bool.false_ne_true),
      if_neg (by rw [hc2]; exact Bool.false_ne_true), if_pos hc3, hdrop]
  · have hlen : p.length = 11 := by
      have h := congrArg List.length hp
      simpa [lowerStr] using h
    have hlow : lowerStr (p ++ rest) = "postgres://".data ++ lowerStr rest := by
      rw [lowerStr_append, hp]
    have hc1 : "postgresql+".data.isPrefixOf (lowerStr (p ++ rest)) = false := by
      rw [hlow]; rfl
    have hc2 : "postgres+".data.isPrefixOf (lowerStr (p ++ rest)) = false := by
      rw [hlow]; rfl
    have hc3 : "postgresql://".data.isPrefixOf (lowerStr (p ++ rest)) = false := by
      rw [hlow]; rfl
    have hc4 : "postgres://".data.isPrefixOf (lowerStr (p ++ rest)) = true := by
      rw [hlow]; exact isPrefixOf_self_append _ _
    have hdrop : (p ++ rest).drop 11 = rest := by
      rw [← hlen]; exact List.drop_left p rest
    unfold normCS
    rw [if_neg (by rw [hc1]; exact Bool.false_ne_true),
      if_neg (by rw [hc2]; exact Bool.false_ne_true),
      if_neg (by rw [hc3]; exact Bool.false_ne_true), if_pos hc4, hdrop]

theorem normCS_idem (l : List Char) : normCS (normCS l) = normCS l := by
  rcases normCS_cases l with h | ⟨d, h⟩
  · rw [h, h]
  · rw [h, normCS_psycopg_fixed]

end NormalizationLemmas

/-- C9: `normalizeConnectionString` is idempotent — every rewritten output
begins with `postgresql+` and is returned unchanged on a second pass, and
non-rewritten inputs are returned unchanged in the first place. -/
theorem claim_C9_normalize_idempotent (s : String) :
    normalizeConnectionString (normalizeConnectionString s)
      = normalizeConnectionString s := by
  unfold normalizeConnectionString
  exact congrArg String.mk (normCS_idem s.data)

/-- C2 counterexample: `" postgresql://h"` and `"postgresql://h"` differ only
in leading whitespace, yet `normalizeConnectionString` maps them to different
strings — the whitespace variant is returned unchanged, not normalized. -/
theorem claim_C2_whitespace_counterexample :
    normalizeConnectionString " postgresql://h"
      ≠ normalizeConnectionString "postgresql://h" := by decide

/-- C2 (amended): for connection strings that differ only in the case of the
URL scheme — any spelling lowering to `postgresql://` or `postgres://`
followed by the same remainder — `normalizeConnectionString`'s core rewrites
both to the same `postgresql+psycopg://` string.  (Whitespace variants are
not normalized: `handleConnect` trims before normalizing, but
`normalizeConnectionString` itself leaves a string with leading whitespace
unchanged.) -/
theorem claim_C2_scheme_case_invariant (p q rest : List Char)
    (hp : lowerStr p = "postgresql://".data ∨ lowerStr p = "postgres://".data)
    (hq : lowerStr q = "postgresql://".data ∨ lowerStr q = "postgres://".data) :
    normCS (p ++ rest) = "postgresql+psycopg://".data ++ rest ∧
      normCS (p ++ rest) = normCS (q ++ rest) := by
  refine ⟨normCS_scheme p rest hp, ?_⟩
  rw [normCS_scheme p rest hp, normCS_scheme q rest hq]

/-- C2 witness: a scheme-case variant of each scheme, same remainder. -/
theorem claim_C2_scheme_case_invariant_witness :
    normCS ("POSTGRESQL://".data ++ "h:x@y/z".data)
      = normCS ("Postgres://".data ++ "h:x@y/z".data) :=
  (claim_C2_scheme_case_invariant "POSTGRESQL://".data "Postgres://".data
    "h:x@y/z".data (Or.inl (by decide)) (Or.inr (by decide))).2

/-- C10: the Dashboard polling effect installs no interval once a
`completed` or `failed` job status is observed — no further status request
can be issued from such a state — while any other non-null status installs
a 2000 ms interval, and a null status installs none. -/
theorem claim_C10_polling_terminal (fetch : String → Option JobStatusResponse)
    (js : JobStatusResponse) :
    ((js.status = "completed" ∨ js.status = "failed") →
        pollingInterval (some js) = none ∧
          ∀ s2, ¬ PollStep fetch (some js) s2) ∧
      (js.status ≠ "completed" → js.status ≠ "failed" →
        pollingInterval (some js) = some 2000) ∧
      pollingInterval none = none := by
  refine ⟨fun h => ⟨by simp [pollingInterval, h], ?_⟩, fun h1 h2 => ?_, rfl⟩
  · intro s2 hstep
    have hnone : pollingInterval (some js) = none := by simp [pollingInterval, h]
    cases hstep <;> simp_all
  · simp [pollingInterval, h1, h2]

/-- C10 witness: a completed job installs no interval. -/
theorem claim_C10_polling_terminal_witness :
    pollingInterval (some ⟨"job-1", "completed", 2, 2⟩) = none :=
  ((claim_C10_polling_terminal (fun _ => none) ⟨"job-1", "completed", 2, 2⟩).1
    (Or.inl rfl)).1

/-- C3: a query whose text is empty or only whitespace is rejected — the
frontend `handleRunQuery` sets an error and sends no request, and the
backend request path fails with a ValidationError before classification
(the orchestrator `compute` is never consulted) leaving cache and history
untouched. -/
theorem claim_C3_empty_query_rejected
    (cs qt : List Char) (compute compute2 : String → QueryResult)
    (st : EngineState) (conn query : String) (topK ttl now : Nat)
    (hqt : (jsTrim qt).isEmpty = true)
    (hquery : (jsTrim query.data).isEmpty = true) :
    setsError (handleRunQuery cs qt) = true ∧
      sendsRequest (handleRunQuery cs qt) = false ∧
      (processQuery compute st conn query topK ttl now).1
        = .error validationErrorEmptyQuery ∧
      (processQuery compute st conn query topK ttl now).2 = st ∧
      processQuery compute st conn query topK ttl now
        = processQuery compute2 st conn query topK ttl now := by
  refine ⟨?_, ?_, ?_, ?_, ?_⟩
  · unfold handleRunQuery
    split_ifs <;> simp_all [setsError]
  · unfold handleRunQuery
    split_ifs <;> simp_all [sendsRequest]
  · simp [processQuery, hquery]
  · simp [processQuery, hquery]
  · simp [processQuery, hquery]

/-- C3 witness: a whitespace-only query against a concrete state. -/
theorem claim_C3_empty_query_rejected_witness :
    setsError (handleRunQuery "c".data "   ".data) = true :=
  (claim_C3_empty_query_rejected "c".data "   ".data
    (fun _ => ⟨.sql, [], []⟩) (fun _ => ⟨.document, [], []⟩)
    ⟨[], []⟩ "c" "   " 10 60 0 (by decide) (by decide)).1

section CacheLemmas

theorem cacheGet_cachePut (cache : List (String × CacheEntry)) (fp : String)
    (r : QueryResult) (now ttl : Nat) (h : 0 < ttl) :
    cacheGet (cachePut cache fp r now ttl) fp now = some r := by
  simp only [cacheGet, cachePut, List.lookup, beq_self_eq_true]
  rw [if_pos (Nat.lt_add_of_pos_right h)]

theorem processQuery_hit (compute : String → QueryResult) (st : EngineState)
    (conn query : String) (topK ttl now : Nat) (r : QueryResult)
    (hemp : ¬((jsTrim query.data).isEmpty = true))
    (hget : cacheGet st.cache
      (fingerprint (normalizeConnectionString conn) ⟨jsTrim query.data⟩ topK) now
        = some r) :
    processQuery compute st conn query topK ttl now
      = (.ok (r, true),
          ⟨st.cache, ⟨⟨jsTrim query.data⟩, r.queryType, now⟩ :: st.history⟩) := by
  unfold processQuery
  rw [if_neg hemp, hget]

theorem processQuery_miss (compute : String → QueryResult) (st : EngineState)
    (conn query : String) (topK ttl now : Nat)
    (hemp : ¬((jsTrim query.data).isEmpty = true))
    (hget : cacheGet st.cache
      (fingerprint (normalizeConnectionString conn) ⟨jsTrim query.data⟩ topK) now
        = none) :
    processQuery compute st conn query topK ttl now
      = (.ok (compute ⟨jsTrim query.data⟩, false),
          ⟨cachePut st.cache
              (fingerprint (normalizeConnectionString conn) ⟨jsTrim query.data⟩ topK)
              (compute ⟨jsTrim query.data⟩) now ttl,
            ⟨⟨jsTrim query.data⟩, (compute ⟨jsTrim query.data⟩).queryType, now⟩
              :: st.history⟩) := by
  unfold processQuery
  rw [if_neg hemp, hget]

end CacheLemmas

/-- C1: a query issued twice in succession with identical text and
connection, with no intervening ingestion or schema refresh (the second call
runs directly on the state the first call produced, at the same instant),
reports `cache_hit = true` on the second call and returns the same result
as the first call. -/
theorem claim_C1_second_call_cache_hit
    (compute : String → QueryResult) (st st1 : EngineState)
    (conn query : String) (topK ttl now : Nat)
    (r1 : QueryResult) (h1 : Bool)
    (httl : 0 < ttl)
    (hfirst : processQuery compute st conn query topK ttl now
        = (.ok (r1, h1), st1)) :
    ∃ st2, processQuery compute st1 conn query topK ttl now
        = (.ok (r1, true), st2) := by
  by_cases hemp : (jsTrim query.data).isEmpty = true
  · exfalso
    unfold processQuery at hfirst
    rw [if_pos hemp] at hfirst
    simp at hfirst
  · rcases hget : cacheGet st.cache
        (fingerprint (normalizeConnectionString conn) ⟨jsTrim query.data⟩ topK) now
        with _ | r
    · rw [processQuery_miss compute st conn query topK ttl now hemp hget] at hfirst
      simp only [Prod.mk.injEq, Except.ok.injEq] at hfirst
      obtain ⟨⟨hr, hh⟩, hst⟩ := hfirst
      subst hst
      rw [← hr]
      exact ⟨_, processQuery_hit compute _ conn query topK ttl now _ hemp
        (cacheGet_cachePut _ _ _ _ _ httl)⟩
    · rw [processQuery_hit compute st conn query topK ttl now r hemp hget] at hfirst
      simp only [Prod.mk.injEq, Except.ok.injEq] at hfirst
      obtain ⟨⟨hr, hh⟩, hst⟩ := hfirst
      subst hst
      subst hr
      exact ⟨_, processQuery_hit compute _ conn query topK ttl now _ hemp hget⟩

/-- C1 witness: a concrete query run twice on an initially empty state. -/
theorem claim_C1_second_call_cache_hit_witness :
    ∃ st2, processQuery (fun _ => ⟨.sql, [["5"]], []⟩)
        (processQuery (fun _ => ⟨.sql, [["5"]], []⟩) ⟨[], []⟩
          "postgresql://u" "show employees" 10 60 5).2
        "postgresql://u" "show employees" 10 60 5
      = (.ok (⟨.sql, [["5"]], []⟩, true), st2) :=
  claim_C1_second_call_cache_hit (fun _ => ⟨.sql, [["5"]], []⟩) ⟨[], []⟩ _
    "postgresql://u" "show employees" 10 60 5 ⟨.sql, [["5"]], []⟩ false
    (by decide) (by decide)

/-- C4: along every run of the ingestion pipeline worker, the job's
processed count never exceeds its total, the status rank along
pending → in_progress → \x7bcompleted, failed\x7d never decreases, and a
completed job stays completed (so in particular no
completed → in_progress regression). -/
theorem claim_C4_job_invariants (j j2 : IngestionJob)
    (hsteps : Relation.ReflTransGen JobStep j j2)
    (hpt : j.processed ≤ j.total) :
    j2.processed ≤ j2.total ∧ statusRank j.status ≤ statusRank j2.status ∧
      (j.status = .completed → j2.status = .completed) := by
  induction hsteps with
  | refl => exact ⟨hpt, le_refl _, fun h => h⟩
  | tail hab hbc ih =>
      obtain ⟨ih1, ih2, ih3⟩ := ih
      cases hbc with
      | start t =>
          exact ⟨ih1,
            le_trans ih2
              (show statusRank .pending ≤ statusRank .in_progress by decide),
            fun h => JobStatus.noConfusion (ih3 h)⟩
      | fileDone p t h =>
          exact ⟨h, ih2, fun hj => JobStatus.noConfusion (ih3 hj)⟩
      | complete t =>
          exact ⟨ih1,
            le_trans ih2
              (show statusRank .in_progress ≤ statusRank .completed by decide),
            fun _ => rfl⟩
      | failPending p t =>
          exact ⟨ih1,
            le_trans ih2
              (show statusRank .pending ≤ statusRank .failed by decide),
            fun hj => JobStatus.noConfusion (ih3 hj)⟩
      | failRunning p t =>
          exact ⟨ih1,
            le_trans ih2
              (show statusRank .in_progress ≤ statusRank .failed by decide),
            fun hj => JobStatus.noConfusion (ih3 hj)⟩

/-- C4 witness: a two-file job run from pending to completed. -/
theorem claim_C4_job_invariants_witness :
    (⟨.completed, 2, 2⟩ : IngestionJob).processed
      ≤ (⟨.completed, 2, 2⟩ : IngestionJob).total :=
  (claim_C4_job_invariants ⟨.pending, 0, 2⟩ ⟨.completed, 2, 2⟩
    (Relation.ReflTransGen.tail
      (Relation.ReflTransGen.tail
        (Relation.ReflTransGen.tail
          (Relation.ReflTransGen.tail Relation.ReflTransGen.refl (JobStep.start 2))
          (JobStep.fileDone 0 2 (by decide)))
        (JobStep.fileDone 1 2 (by decide)))
      (JobStep.complete 2))
    (by decide)).1

/-- C7: classification is a deterministic function of the query text and
schema model — its result does not depend on the wall-clock or random-state
arguments. -/
theorem claim_C7_classifier_deterministic (t1 t2 r1 r2 : Nat)
    (query : String) (schema : SchemaModel) :
    classifyQuery t1 r1 query schema = classifyQuery t2 r2 query schema := rfl

section SearchLemmas

theorem chunkLE_total (q : List Int) (a b : DocumentChunk) :
    (chunkLE q a b || chunkLE q b a) = true := by
  simp only [chunkLE, Bool.or_eq_true, Bool.and_eq_true, decide_eq_true_eq]
  rcases lt_trichotomy (similarity q a.embedding) (similarity q b.embedding)
    with h | h | h
  · exact Or.inr (Or.inl h)
  · rcases Nat.le_total a.ordinal b.ordinal with ho | ho
    · exact Or.inl (Or.inr ⟨h, ho⟩)
    · exact Or.inr (Or.inr ⟨h.symm, ho⟩)
  · exact Or.inl (Or.inl h)

theorem chunkLE_trans (q : List Int) (a b c : DocumentChunk)
    (hab : chunkLE q a b = true) (hbc : chunkLE q b c = true) :
    chunkLE q a c = true := by
  simp only [chunkLE, Bool.or_eq_true, Bool.and_eq_true, decide_eq_true_eq]
    at hab hbc ⊢
  rcases hab with h | ⟨h, ho⟩ <;> rcases hbc with h2 | ⟨h2, ho2⟩
  · exact Or.inl (lt_trans h2 h)
  · exact Or.inl (h2 ▸ h)
  · exact Or.inl (h ▸ h2)
  · exact Or.inr ⟨h.trans h2, ho.trans ho2⟩

end SearchLemmas

/-- C6: searching an empty vector store returns an empty sequence for every
query embedding, k and filter (the function is total, so no error can be
raised). -/
theorem claim_C6_search_empty_store (q : List Int) (k : Nat)
    (filter : DocumentChunk → Bool) :
    vsearch q k filter [] = [] := by
  simp [vsearch]

/-- C5: `search(queryEmbedding, k, filter?)` returns exactly
`min k (number of matching chunks)` chunks, all drawn from the stored chunks
satisfying the filter; the returned list is ordered by the ranking (higher
similarity first, ties by earlier creation ordinal), and every returned
chunk ranks at least as high as every matching chunk left out — so the
result is the top k by similarity under the one similarity measure, with
ties broken by creation order, earlier first. -/
theorem claim_C5_search_top_k (q : List Int) (k : Nat)
    (filter : DocumentChunk → Bool) (store : List DocumentChunk) :
    (vsearch q k filter store).length = min k (store.filter filter).length ∧
      (∀ c ∈ vsearch q k filter store, c ∈ store.filter filter) ∧
      List.Pairwise (fun a b => chunkLE q a b = true) (vsearch q k filter store) ∧
      (∀ x ∈ vsearch q k filter store, ∀ y ∈ store.filter filter,
        y ∉ vsearch q k filter store → chunkLE q x y = true) := by
  have hperm : ((store.filter filter).mergeSort (chunkLE q)).Perm
      (store.filter filter) := List.mergeSort_perm (store.filter filter) (chunkLE q)
  have hsorted : List.Pairwise (fun a b => chunkLE q a b = true)
      ((store.filter filter).mergeSort (chunkLE q)) :=
    List.sorted_mergeSort (chunkLE_trans q) (chunkLE_total q) (store.filter filter)
  refine ⟨?_, ?_, ?_, ?_⟩
  · show (((store.filter filter).mergeSort (chunkLE q)).take k).length
      = min k (store.filter filter).length
    rw [List.length_take, hperm.length_eq]
  · intro c hc
    exact hperm.mem_iff.mp (List.mem_of_mem_take hc)
  · exact List.Pairwise.sublist
      (List.take_sublist k ((store.filter filter).mergeSort (chunkLE q))) hsorted
  · intro x hx y hyF hynot
    have hyS : y ∈ (store.filter filter).mergeSort (chunkLE q) :=
      hperm.mem_iff.mpr hyF
    rw [← List.take_append_drop k ((store.filter filter).mergeSort (chunkLE q))]
      at hyS
    have hyd : y ∈ ((store.filter filter).mergeSort (chunkLE q)).drop k := by
      rcases List.mem_append.mp hyS with h | h
      · exact absurd h hynot
      · exact h
    have hTP : List.Pairwise (fun a b => chunkLE q a b = true)
        (((store.filter filter).mergeSort (chunkLE q)).take k ++
          ((store.filter filter).mergeSort (chunkLE q)).drop k) := by
      rw [List.take_append_drop k ((store.filter filter).mergeSort (chunkLE q))]
      exact hsorted
    exact (List.pairwise_append.mp hTP).2.2 x hx y hyd

/-- C5 witness: on a three-chunk store the search returns
`min 2 3 = 2` chunks. -/
theorem claim_C5_search_top_k_witness :
    (vsearch [1] 2 (fun _ => true)
      [⟨"c1", "d1", 0, "alpha", [2]⟩, ⟨"c2", "d1", 1, "beta", [5]⟩,
        ⟨"c3", "d2", 2, "gamma", [2]⟩]).length = 2 := by
  have h := (claim_C5_search_top_k [1] 2 (fun _ => true)
    [⟨"c1", "d1", 0, "alpha", [2]⟩, ⟨"c2", "d1", 1, "beta", [5]⟩,
      ⟨"c3", "d2", 2, "gamma", [2]⟩]).1
  simpa using h

section JobRunLemmas

theorem job_run_aux (n : Nat) :
    ∀ k p, p + k = n →
      Relation.ReflTransGen JobStep ⟨.in_progress, p, n⟩ ⟨.in_progress, n, n⟩ := by
  intro k
  induction k with
  | zero =>
      intro p hp
      rw [Nat.add_zero] at hp
      subst hp
      exact Relation.ReflTransGen.refl
  | succ k ih =>
      intro p hp
      have hlt : p < n := by omega
      exact Relation.ReflTransGen.head (JobStep.fileDone p n hlt)
        (ih (p + 1) (by omega))

theorem job_completes (n : Nat) :
    Relation.ReflTransGen JobStep ⟨.pending, 0, n⟩ ⟨.completed, n, n⟩ :=
  Relation.ReflTransGen.head (JobStep.start n)
    ((job_run_aux n n 0 (by omega)).tail (JobStep.complete n))

end JobRunLemmas

/-- C8: a file with an unsupported extension never enters the queued
ingestion job — it is rejected at validation — while the queued job starts
pending over exactly the supported files and can run to `completed` with
all of them processed; and the frontend file picker's `accept` attribute is
exactly the supported extensions `.pdf,.docx,.txt,.csv,.json,.jsonl`. -/
theorem claim_C8_unsupported_rejected (files : List RawFile) :
    (∀ f ∈ files, isSupported f = false → f ∉ (queueJob files).2) ∧
      (queueJob files).1.status = .pending ∧
      (queueJob files).1.total = (queueJob files).2.length ∧
      Relation.ReflTransGen JobStep (queueJob files).1
        ⟨.completed, (queueJob files).2.length, (queueJob files).2.length⟩ ∧
      String.intercalate "," supportedExtensions = acceptAttribute := by
  refine ⟨?_, rfl, rfl, job_completes _, by decide⟩
  intro f hf hbad hmem
  have hm := List.mem_filter.mp hmem
  rw [hbad] at hm
  exact absurd hm.2 (by decide)

/-- C8 witness: a three-file batch with one unsupported extension — the
unsupported file is not part of the queued job. -/
theorem claim_C8_unsupported_rejected_witness :
    (⟨"b.exe", "y"⟩ : RawFile)
      ∉ (queueJob [⟨"a.pdf", "x"⟩, ⟨"b.exe", "y"⟩, ⟨"c.txt", "z"⟩]).2 :=
  (claim_C8_unsupported_rejected
    [⟨"a.pdf", "x"⟩, ⟨"b.exe", "y"⟩, ⟨"c.txt", "z"⟩]).1
    ⟨"b.exe", "y"⟩ (by decide) (by decide)

end EmployeeNLQ

